import Mathlib

/-!
Shallow embedding of `torchtune/models/gemma/transformer.py`
(`GemmaTransformerDecoder`) and the list/tensor operations it uses.

Modelling conventions:
- A 3-D tensor `[batch, seq, dim]` is a ragged `List (List (List Int))`
  together with a dtype tag; rectangularity is stated as hypotheses where
  needed.  Exact integers stand in for floating-point values (the claims
  use only addition and multiplication), so "equal within floating
  tolerance" becomes exact equality.
- Python exceptions become an `Except Err _` result paired with the
  post-call object state; an error branch returns the state unchanged
  exactly when the Python `raise` happens before any mutation.
- Decoder layers are opaque external collaborators: a layer carries a
  `cache_enabled` flag and opaque cache contents, and layer application is
  a parameter `lf` that may only read/update the cache contents
  (the flag is fixed by `setup_caches`, matching the collaborator
  contract in which a layer's forward never allocates or frees its cache).
-/

namespace Gemma

/-- Numeric dtype tags relevant to the claims (`.float()` upcasts to
`float32`; everything else keeps its dtype). -/
inductive DType where
  | float32
  | bfloat16
  | float16
deriving DecidableEq, Repr

/-- A 3-D tensor `[batch, seq, dim]`: ragged data plus a dtype tag. -/
structure Tensor3 where
  data : List (List (List Int))
  dtype : DType
deriving DecidableEq, Repr

/-- Boolean attention mask; the cached path builds shape `[1, P, L]`
(`causal_mask[None, input_pos]`), a caller mask has shape `[b, s, s]`. -/
abbrev Mask := List (List (List Bool))

/-- Rectangular shape predicate for a 3-D tensor. -/
def HasShape (t : Tensor3) (b s d : Nat) : Prop :=
  t.data.length = b ∧ ∀ r ∈ t.data, r.length = s ∧ ∀ x ∈ r, x.length = d

/-- Dot product of two vectors (used by `F.linear`). -/
def dotProd (x w : List Int) : Int :=
  (List.zipWith (· * ·) x w).sum

/-- One output position of `F.linear(x, W)`: `out[v] = ⟪x, W[v]⟫`,
i.e. multiplication by the transposed weight matrix. -/
def linearRow (W : List (List Int)) (x : List Int) : List Int :=
  W.map (dotProd x)

/-- `F.linear(h, W)` on a 3-D input: applied at every `[b][s]` position;
the result keeps the input's working dtype. -/
def linear3 (h : Tensor3) (W : List (List Int)) : Tensor3 :=
  ⟨h.data.map (fun seq => seq.map (linearRow W)), h.dtype⟩

/-- `Tensor.float()`: upcast to 32-bit floating precision (exact on the
values, so only the dtype tag changes in the model). -/
def Tensor3.float (t : Tensor3) : Tensor3 :=
  ⟨t.data, DType.float32⟩

/-- Scalar multiplication `h * c` (same dtype). -/
def Tensor3.scaleBy (t : Tensor3) (c : Int) : Tensor3 :=
  ⟨t.data.map (fun r => r.map (fun x => x.map (· * c))), t.dtype⟩

/-- `torch.chunk` chunk size along a length-`n` dimension split into
`chunks` pieces: `⌈n / chunks⌉`. -/
def torchChunkSize (chunks n : Nat) : Nat :=
  (n + chunks - 1) / chunks

/-- Number of chunks `torch.chunk` actually returns: with piece size
`s = ⌈n / chunks⌉` it yields `⌈n / s⌉` pieces, possibly fewer than
`chunks`. -/
def numChunks (chunks n : Nat) : Nat :=
  (n + torchChunkSize chunks n - 1) / torchChunkSize chunks n

/-- `t.chunk(chunks, dim=1)`: split the sequence axis into pieces of size
`⌈n / chunks⌉` (the last piece may be smaller); every piece keeps the
working dtype. -/
def Tensor3.chunk (t : Tensor3) (chunks : Nat) : List Tensor3 :=
  let n := (t.data.headD []).length
  let s := torchChunkSize chunks n
  (List.range (numChunks chunks n)).map
    (fun k => ⟨t.data.map (fun row => (row.drop (k * s)).take s), t.dtype⟩)

/-- `torch.tril(torch.ones(L, L, dtype=torch.bool))`: the boolean causal
mask, `mask[i][j] = (j ≤ i)`. -/
def trilOnes (L : Nat) : List (List Bool) :=
  (List.range L).map (fun i => (List.range L).map (fun j => decide (j ≤ i)))

/-- `self.causal_mask[None, input_pos]`: gather the causal-mask rows at the
supplied absolute positions, with a leading broadcast dimension of size 1. -/
def maskGather (cm : List (List Bool)) (ps : List Nat) : Mask :=
  [ps.map (fun p => cm.getD p [])]

/-- The only exception class raised by `GemmaTransformerDecoder.forward`. -/
inductive Err where
  | valueError : String → Err
deriving DecidableEq, Repr

/-- Result of the output projection: a single logits tensor, or the list of
chunk tensors when chunking is enabled. -/
inductive Output where
  | single : Tensor3 → Output
  | chunked : List Tensor3 → Output
deriving DecidableEq, Repr

/-- An opaque decoder layer: its cache-enabled flag and opaque cache
contents.  Layer internals are external collaborators. -/
structure Layer where
  cache_enabled : Bool
  cache : List Int
deriving DecidableEq, Repr

/-- Modelled from the spec: `TransformerSelfAttentionLayer.setup_caches` is
not under `src/`; per the spec it allocates the layer's KV cache, after
which the layer reports cache-enabled. -/
def Layer.setup_caches (l : Layer) (_batch_size : Nat) (_dtype : DType)
    (_encoder_max_seq_len _decoder_max_seq_len : Option Nat) : Layer :=
  { l with cache_enabled := true, cache := [] }

/-- Opaque layer application `h = layer(h, mask=mask, input_pos=input_pos)`:
it returns the new hidden state and the layer's updated private cache
contents.  The type enforces the collaborator contract that a layer's
forward mutates only its own cache contents, never the enabled flag. -/
abbrev LayerFwd :=
  Tensor3 → Option Mask → Option (List Nat) → List Int → Tensor3 × List Int

/-- State of `GemmaTransformerDecoder` (module attributes set in
`__init__` / `setup_caches`).  `tok_embeddings` is the embedding weight
matrix `[vocab_size, embed_dim]` with its dtype; `norm` is the opaque
final-normalization collaborator. -/
structure GemmaTransformerDecoder where
  tok_embeddings : List (List Int)
  tok_dtype : DType
  layers : List Layer
  norm : Tensor3 → Tensor3
  max_seq_len : Nat
  num_heads : Nat
  head_dim : Nat
  causal_mask : Option (List (List Bool))
  norm_embeddings : Bool
  num_output_chunks : Nat
  encoder_max_seq_len : Option Nat
  decoder_max_seq_len : Option Nat

namespace GemmaTransformerDecoder

/-- `__init__`: `_get_clones(layer, num_layers)` replicates one layer,
`causal_mask = None`, `num_output_chunks = 0`. -/
def init (tok_embeddings : List (List Int)) (tok_dtype : DType)
    (layer : Layer) (num_layers : Nat) (max_seq_len num_heads head_dim : Nat)
    (norm : Tensor3 → Tensor3) (norm_embeddings : Bool := false) :
    GemmaTransformerDecoder :=
  { tok_embeddings := tok_embeddings
    tok_dtype := tok_dtype
    layers := List.replicate num_layers layer
    norm := norm
    max_seq_len := max_seq_len
    num_heads := num_heads
    head_dim := head_dim
    causal_mask := none
    norm_embeddings := norm_embeddings
    num_output_chunks := 0
    encoder_max_seq_len := none
    decoder_max_seq_len := none }

/-- `caches_are_setup`: returns `self.layers[0].cache_enabled`; `none`
models the `IndexError` on an empty layer list. -/
def caches_are_setup (st : GemmaTransformerDecoder) : Option Bool :=
  st.layers.head?.map Layer.cache_enabled

/-- `set_num_output_chunks`. -/
def set_num_output_chunks (st : GemmaTransformerDecoder) (n : Nat) :
    GemmaTransformerDecoder :=
  { st with num_output_chunks := n }

/-- `setup_caches`: store the max lengths when supplied, set up every
layer's cache, then rebuild `causal_mask` by direct construction at
`max_seq_len`. -/
def setup_caches (st : GemmaTransformerDecoder) (batch_size : Nat)
    (dtype : DType) (encoder_max_seq_len decoder_max_seq_len : Option Nat) :
    GemmaTransformerDecoder :=
  { st with
    encoder_max_seq_len :=
      match encoder_max_seq_len with
      | some e => some e
      | none => st.encoder_max_seq_len
    decoder_max_seq_len :=
      match decoder_max_seq_len with
      | some d => some d
      | none => st.decoder_max_seq_len
    layers := st.layers.map
      (fun l => l.setup_caches batch_size dtype
        encoder_max_seq_len decoder_max_seq_len)
    causal_mask := some (trilOnes st.max_seq_len) }

/-- `self.tok_embeddings(tokens)`: row lookup into the embedding weight;
the hidden state takes the embedding weight's dtype. -/
def tok_embed (st : GemmaTransformerDecoder) (tokens : List (List Nat)) :
    Tensor3 :=
  ⟨tokens.map (fun row => row.map (fun t => st.tok_embeddings.getD t [])),
   st.tok_dtype⟩

/-- `chunked_output`: apply the (transposed-embedding-weight) projection to
each `torch.chunk` piece of the last hidden state independently. -/
def chunked_output (st : GemmaTransformerDecoder)
    (last_hidden_state : Tensor3) : List Tensor3 :=
  (last_hidden_state.chunk st.num_output_chunks).map
    (fun chunk => linear3 chunk st.tok_embeddings)

/-- The layer loop `for layer in self.layers: h = layer(h, mask=mask,
input_pos=input_pos)`: the same mask and positions are handed to every
layer; each layer's private cache contents are updated in place. -/
def runLayers (lf : LayerFwd) (mask : Option Mask)
    (input_pos : Option (List Nat)) :
    Tensor3 → List Layer → Tensor3 × List Layer
  | h, [] => (h, [])
  | h, l :: rest =>
    let hc := lf h mask input_pos l.cache
    let hr := runLayers lf mask input_pos hc.1 rest
    (hr.1, { l with cache := hc.2 } :: hr.2)

/-- Tail of `forward` after mask resolution: optional embedding scaling by
`sqrtD` (modelling the float scalar `hidden_dim ** 0.5`, supplied as a
parameter because it is irrational), the layer loop, final norm, and the
output projection (chunked when `num_output_chunks > 0`, otherwise a
single projection upcast via `.float()`). -/
def forwardRest (lf : LayerFwd) (sqrtD : Int)
    (st : GemmaTransformerDecoder) (h : Tensor3) (mask : Option Mask)
    (input_pos : Option (List Nat)) :
    Except Err Output × GemmaTransformerDecoder :=
  let h := if st.norm_embeddings then h.scaleBy sqrtD else h
  let hl := runLayers lf mask input_pos h st.layers
  let st' := { st with layers := hl.2 }
  let h := st.norm hl.1
  (if st.num_output_chunks > 0 then
    Except.ok (Output.chunked (chunked_output st' h))
  else
    Except.ok (Output.single ((linear3 h st.tok_embeddings).float)), st')

/-- `forward`: embed the tokens; in cached mode (causal mask present)
require `input_pos`, reject an explicit `mask`, and gather causal-mask rows
at `input_pos`; then run the layer stack and the output projection.  The
second component is the post-call module state (unchanged on an error,
since the Python `raise` happens before the layer loop). -/
def forward (lf : LayerFwd) (sqrtD : Int) (st : GemmaTransformerDecoder)
    (tokens : List (List Nat)) (mask : Option Mask)
    (input_pos : Option (List Nat)) :
    Except Err Output × GemmaTransformerDecoder :=
  let h := st.tok_embed tokens
  match st.causal_mask with
  | some cm =>
    match input_pos with
    | none =>
      (Except.error (Err.valueError
        "Caches are setup, but the position of input token is missing"), st)
    | some ps =>
      match mask with
      | some _ =>
        (Except.error (Err.valueError
          "An attention mask was set. Cannot use a non-causal mask for inference"),
         st)
      | none => forwardRest lf sqrtD st h (some (maskGather cm ps)) (some ps)
  | none => forwardRest lf sqrtD st h mask input_pos

end GemmaTransformerDecoder

/-- Concatenation along the sequence axis, for batch row `i`, of a list of
chunk tensors (the comparison point of the chunked-output claims). -/
def concatChunks (ts : List Tensor3) (i : Nat) : List (List Int) :=
  (ts.map (fun t => t.data.getD i [])).flatten

/-- States reachable through the public operations of the decoder, starting
from construction with a freshly built layer (per the collaborator
contract, a fresh layer has no KV cache, hence reports cache-disabled) and
a positive layer count. -/
inductive Reachable : GemmaTransformerDecoder → Prop where
  | init : ∀ W dt l n L nh hd nrm ne, l.cache_enabled = false → 0 < n →
      Reachable (GemmaTransformerDecoder.init W dt l n L nh hd nrm ne)
  | setup : ∀ st b dt e d, Reachable st →
      Reachable (st.setup_caches b dt e d)
  | chunks : ∀ st n, Reachable st → Reachable (st.set_num_output_chunks n)
  | fwd : ∀ lf sq st toks m ip, Reachable st →
      Reachable (GemmaTransformerDecoder.forward lf sq st toks m ip).2

/-- A trivial decoder-layer application used in concrete instances: passes
the hidden state through and leaves the cache contents unchanged. -/
def lfEx : LayerFwd := fun h _ _ c => (h, c)

/-- Concrete decoder instance: vocab 1, embed dim 1, one layer,
`max_seq_len` 4, bfloat16 embedding weights, identity final norm. -/
def stEx : GemmaTransformerDecoder :=
  GemmaTransformerDecoder.init [[1]] DType.bfloat16 ⟨false, []⟩ 1 4 1 1 id

/-- `stEx` after `setup_caches`. -/
def stCached : GemmaTransformerDecoder :=
  stEx.setup_caches 1 DType.float32 none (some 4)

/-- `stEx` with two output chunks configured. -/
def stChunk2 : GemmaTransformerDecoder :=
  stEx.set_num_output_chunks 2

/-- A concrete `1 × 4 × 1` hidden state (divisible by 2 chunks). -/
def hEx4 : Tensor3 := ⟨[[[1], [2], [3], [4]]], DType.float32⟩

/-- A concrete `1 × 3 × 1` hidden state (not divisible by 2 chunks). -/
def hEx3 : Tensor3 := ⟨[[[1], [2], [3]]], DType.float32⟩

/-- A concrete `1 × 2 × 1` bfloat16 hidden state. -/
def hExB : Tensor3 := ⟨[[[1], [2]]], DType.bfloat16⟩

section ListLemmas

variable {α β : Type}

theorem take_add_split (l : List α) (m n : Nat) :
    l.take (m + n) = l.take m ++ (l.drop m).take n := by
  induction m generalizing l with
  | zero => simp
  | succ m ih =>
    cases l with
    | nil => simp
    | cons a t =>
      simp only [List.take_succ_cons, List.drop_succ_cons, List.cons_append,
        Nat.succ_add]
      rw [ih]

/-- Flattening consecutive `drop (k*s) |>.take s` windows recovers a
prefix of length `K*s`. -/
theorem flatten_dropTake (s : Nat) (K : Nat) (l : List α) :
    ((List.range K).map (fun k => (l.drop (k * s)).take s)).flatten
      = l.take (K * s) := by
  induction K generalizing l with
  | zero => simp
  | succ K ih =>
    rw [List.range_succ_eq_map, List.map_cons, List.map_map,
      List.flatten_cons]
    have hcomp :
        ((fun k => (l.drop (k * s)).take s) ∘ Nat.succ)
          = fun k => ((l.drop s).drop (k * s)).take s := by
      funext k
      simp only [Function.comp_apply, Nat.succ_mul, List.drop_drop]
      rw [Nat.add_comm (k * s) s]
    rw [hcomp, ih, Nat.succ_mul, Nat.add_comm (K * s) s, take_add_split]
    simp

end ListLemmas

section NatLemmas

/-- A length `n` fits within `⌈n/s⌉` windows of size `s`. -/
theorem le_ceil_mul (n s : Nat) (hs : 0 < s) :
    n ≤ ((n + s - 1) / s) * s := by
  have h1 := Nat.div_add_mod (n + s - 1) s
  have h2 : (n + s - 1) % s < s := Nat.mod_lt _ hs
  have h3 : s * ((n + s - 1) / s) = ((n + s - 1) / s) * s :=
    Nat.mul_comm _ _
  omega

theorem torchChunkSize_pos (C n : Nat) (hC : 0 < C) (hn : 0 < n) :
    0 < torchChunkSize C n := by
  unfold torchChunkSize
  exact Nat.div_pos (by omega) hC

theorem torchChunkSize_dvd (C n : Nat) (hC : 0 < C) (hdvd : C ∣ n) :
    torchChunkSize C n = n / C := by
  obtain ⟨q, rfl⟩ := hdvd
  unfold torchChunkSize
  have h1 : C * q + C - 1 = C * q + (C - 1) := by omega
  rw [h1, Nat.mul_add_div hC, Nat.div_eq_of_lt (by omega),
    Nat.mul_div_cancel_left _ hC, Nat.add_zero]

theorem numChunks_dvd (C n : Nat) (hC : 0 < C) (hn : 0 < n)
    (hdvd : C ∣ n) : numChunks C n = C := by
  have hs := torchChunkSize_dvd C n hC hdvd
  obtain ⟨q, hq⟩ := hdvd
  have hqC : n / C = q := by rw [hq, Nat.mul_div_cancel_left _ hC]
  have hqpos : 0 < q := by
    rcases Nat.eq_zero_or_pos q with h | h
    · subst h; omega
    · exact h
  unfold numChunks
  rw [hs, hqC]
  have hq2 : n = q * C := by rw [hq, Nat.mul_comm]
  have h1 : n + q - 1 = q * C + (q - 1) := by omega
  rw [h1, Nat.mul_add_div hqpos, Nat.div_eq_of_lt (by omega), Nat.add_zero]

theorem le_numChunks_mul (C n : Nat) (hC : 0 < C) (hn : 0 < n) :
    n ≤ numChunks C n * torchChunkSize C n := by
  have hs := torchChunkSize_pos C n hC hn
  unfold numChunks
  exact le_ceil_mul n _ hs

end NatLemmas

/-- Concatenating the chunked projections per batch row recovers the
single-shot projection of that row (holds for any positive chunk count and
sequence length, divisible or not, since `torch.chunk` covers the whole
axis). -/
theorem chunked_concat_eq (st : GemmaTransformerDecoder) (h : Tensor3)
    (b n d : Nat) (hb : 0 < b) (hn : 0 < n) (hC : 0 < st.num_output_chunks)
    (hshape : HasShape h b n d) :
    ∀ i, i < b →
      concatChunks (st.chunked_output h) i
        = (linear3 h st.tok_embeddings).data.getD i [] := by
  intro i hi
  obtain ⟨hlen, hrows⟩ := hshape
  have hidata : i < h.data.length := by omega
  have hhead : (h.data.headD []).length = n := by
    cases hd : h.data with
    | nil => rw [hd] at hlen; simp at hlen; omega
    | cons r rest =>
      have hr : r ∈ h.data := by rw [hd]; exact List.mem_cons_self r rest
      simp [hd, (hrows r hr).1]
  simp only [GemmaTransformerDecoder.chunked_output, Tensor3.chunk, hhead,
    concatChunks, linear3, List.map_map]
  have hrown : (h.data.getD i []).length = n := by
    rw [List.getD_eq_getElem _ _ hidata]
    exact (hrows _ (List.getElem_mem hidata)).1
  have hle : n ≤ numChunks st.num_output_chunks n
      * torchChunkSize st.num_output_chunks n :=
    le_numChunks_mul _ n hC hn
  have hstep : ∀ k : Nat,
      (((fun t : Tensor3 => t.data.getD i []) ∘
        (fun chunk : Tensor3 =>
          ({ data := List.map (fun seq => List.map (linearRow st.tok_embeddings) seq) chunk.data,
             dtype := chunk.dtype } : Tensor3)) ∘
        (fun k : Nat =>
          ({ data := List.map (fun row =>
                List.take (torchChunkSize st.num_output_chunks n)
                  (List.drop (k * torchChunkSize st.num_output_chunks n) row)) h.data,
             dtype := h.dtype } : Tensor3))) k)
        = List.map (linearRow st.tok_embeddings)
            (List.take (torchChunkSize st.num_output_chunks n)
              (List.drop (k * torchChunkSize st.num_output_chunks n)
                (h.data.getD i []))) := by
    intro k
    simp only [Function.comp_apply, List.map_map]
    rw [List.getD_eq_getElem h.data [] hidata,
      List.getD_eq_getElem _ _ (by simpa using hidata)]
    simp
  rw [List.map_congr_left (fun k _ => hstep k)]
  have hmm : (fun k : Nat =>
      List.map (linearRow st.tok_embeddings)
        (List.take (torchChunkSize st.num_output_chunks n)
          (List.drop (k * torchChunkSize st.num_output_chunks n)
            (h.data.getD i []))))
      = (List.map (linearRow st.tok_embeddings)) ∘
        (fun k : Nat =>
          List.take (torchChunkSize st.num_output_chunks n)
            (List.drop (k * torchChunkSize st.num_output_chunks n)
              (h.data.getD i []))) := rfl
  rw [hmm, ← List.map_map, ← List.map_flatten, flatten_dropTake,
    List.take_of_length_le (by omega)]
  rw [List.getD_eq_getElem h.data [] hidata,
    List.getD_eq_getElem _ _ (by simpa using hidata)]
  simp

namespace GemmaTransformerDecoder

/-- The layer loop updates only each layer's private cache contents: the
per-layer `cache_enabled` flags are untouched. -/
theorem runLayers_map_enabled (lf : LayerFwd) (mask : Option Mask)
    (input_pos : Option (List Nat)) (h : Tensor3) (ls : List Layer) :
    ((runLayers lf mask input_pos h ls).2).map Layer.cache_enabled
      = ls.map Layer.cache_enabled := by
  induction ls generalizing h with
  | nil => simp [runLayers]
  | cons l rest ih => simp [runLayers, ih]

/-- `forward` never touches `causal_mask`. -/
theorem forward_snd_causal (lf : LayerFwd) (sqrtD : Int)
    (st : GemmaTransformerDecoder) (tokens : List (List Nat))
    (mask : Option Mask) (input_pos : Option (List Nat)) :
    (forward lf sqrtD st tokens mask input_pos).2.causal_mask
      = st.causal_mask := by
  rcases hcm : st.causal_mask with _ | cm <;>
    rcases input_pos with _ | ps <;>
    rcases mask with _ | m <;>
    simp [forward, forwardRest, hcm]

/-- `forward` never changes the layers' `cache_enabled` flags. -/
theorem forward_snd_map_enabled (lf : LayerFwd) (sqrtD : Int)
    (st : GemmaTransformerDecoder) (tokens : List (List Nat))
    (mask : Option Mask) (input_pos : Option (List Nat)) :
    (forward lf sqrtD st tokens mask input_pos).2.layers.map Layer.cache_enabled
      = st.layers.map Layer.cache_enabled := by
  rcases hcm : st.causal_mask with _ | cm <;>
    rcases input_pos with _ | ps <;>
    rcases mask with _ | m <;>
    simp [forward, forwardRest, hcm, runLayers_map_enabled]

/-- The post-check part of `forward` always succeeds (both output branches
return `ok`). -/
theorem forwardRest_fst_ok (lf : LayerFwd) (sqrtD : Int)
    (st : GemmaTransformerDecoder) (h : Tensor3) (mask : Option Mask)
    (input_pos : Option (List Nat)) :
    ∃ o, (forwardRest lf sqrtD st h mask input_pos).1 = Except.ok o := by
  unfold forwardRest
  dsimp only
  split <;> exact ⟨_, rfl⟩

/-- With chunking disabled, the post-check part of `forward` returns the
single `.float()`-upcast projection of the final normalized hidden
state. -/
theorem forwardRest_fst_unchunked (lf : LayerFwd) (sqrtD : Int)
    (st : GemmaTransformerDecoder) (h : Tensor3) (mask : Option Mask)
    (input_pos : Option (List Nat)) (hchunks : st.num_output_chunks = 0) :
    (forwardRest lf sqrtD st h mask input_pos).1
      = Except.ok (Output.single ((linear3
          (st.norm (runLayers lf mask input_pos
            (if st.norm_embeddings then h.scaleBy sqrtD else h) st.layers).1)
          st.tok_embeddings).float)) := by
  simp [forwardRest, hchunks]

end GemmaTransformerDecoder

section ShapeLemmas

open GemmaTransformerDecoder

/-- Embedding lookup of a `b × s` token batch with in-range token ids and a
rectangular `vocab × d` weight yields a `b × s × d` hidden state. -/
theorem hasShape_tok_embed (st : GemmaTransformerDecoder)
    (tokens : List (List Nat)) (b s d : Nat) (htl : tokens.length = b)
    (hrow : ∀ r ∈ tokens, r.length = s ∧ ∀ t ∈ r, t < st.tok_embeddings.length)
    (hW : ∀ w ∈ st.tok_embeddings, w.length = d) :
    HasShape (st.tok_embed tokens) b s d := by
  refine ⟨by simpa [tok_embed] using htl, ?_⟩
  intro r hr
  simp only [tok_embed, List.mem_map] at hr
  obtain ⟨r0, hr0, rfl⟩ := hr
  refine ⟨by simpa using (hrow r0 hr0).1, ?_⟩
  intro x hx
  simp only [List.mem_map] at hx
  obtain ⟨t, ht, rfl⟩ := hx
  have htlt : t < st.tok_embeddings.length := (hrow r0 hr0).2 t ht
  rw [List.getD_eq_getElem _ _ htlt]
  exact hW _ (List.getElem_mem htlt)

theorem hasShape_scaleBy (t : Tensor3) (c : Int) (b s d : Nat)
    (h : HasShape t b s d) : HasShape (t.scaleBy c) b s d := by
  obtain ⟨h1, h2⟩ := h
  refine ⟨by simpa [Tensor3.scaleBy] using h1, ?_⟩
  intro r hr
  simp only [Tensor3.scaleBy, List.mem_map] at hr
  obtain ⟨r0, hr0, rfl⟩ := hr
  refine ⟨by simpa using (h2 r0 hr0).1, ?_⟩
  intro x hx
  simp only [List.mem_map] at hx
  obtain ⟨x0, hx0, rfl⟩ := hx
  simpa using (h2 r0 hr0).2 x0 hx0

/-- If every layer application preserves shape (the decoder-layer
collaborator contract), so does the whole layer loop. -/
theorem hasShape_runLayers (lf : LayerFwd)
    (hlf : ∀ h m ip c b s d, HasShape h b s d → HasShape (lf h m ip c).1 b s d)
    (mask : Option Mask) (input_pos : Option (List Nat)) (b s d : Nat) :
    ∀ (ls : List Layer) (h : Tensor3), HasShape h b s d →
      HasShape (runLayers lf mask input_pos h ls).1 b s d := by
  intro ls
  induction ls with
  | nil => intro h hh; simpa [runLayers] using hh
  | cons l rest ih =>
    intro h hh
    simp only [runLayers]
    exact ih _ (hlf _ _ _ _ _ _ _ hh)

/-- The linear projection turns a `b × s × d` input into a
`b × s × vocab` output. -/
theorem hasShape_linear3 (h : Tensor3) (W : List (List Int)) (b s d : Nat)
    (hh : HasShape h b s d) : HasShape (linear3 h W) b s W.length := by
  obtain ⟨h1, h2⟩ := hh
  refine ⟨by simpa [linear3] using h1, ?_⟩
  intro r hr
  simp only [linear3, List.mem_map] at hr
  obtain ⟨r0, hr0, rfl⟩ := hr
  refine ⟨by simpa using (h2 r0 hr0).1, ?_⟩
  intro x hx
  simp only [List.mem_map] at hx
  obtain ⟨x0, _, rfl⟩ := hx
  simp [linearRow]

end ShapeLemmas

/-- Row `p` of the causal mask is `j ≤ p` over all `L` columns. -/
theorem trilOnes_row (L p : Nat) (hp : p < L) :
    (trilOnes L).getD p [] = (List.range L).map (fun j => decide (j ≤ p)) := by
  have hlen : p < (trilOnes L).length := by simpa [trilOnes] using hp
  rw [List.getD_eq_getElem _ _ hlen]
  simp [trilOnes]

/-- Entry `(i, j)` of the causal mask is `decide (j ≤ i)`. -/
theorem trilOnes_entry (L i j : Nat) (hi : i < L) (hj : j < L) :
    ((trilOnes L).getD i []).getD j false = decide (j ≤ i) := by
  rw [trilOnes_row L i hi]
  have hlenj : j < ((List.range L).map (fun k => decide (k ≤ i))).length := by
    simpa using hj
  rw [List.getD_eq_getElem _ _ hlenj]
  simp

/-- A nonempty rectangular tensor's first batch row has the common
sequence length. -/
theorem headD_len (h : Tensor3) (b n d : Nat) (hb : 0 < b)
    (hshape : HasShape h b n d) : (h.data.headD []).length = n := by
  obtain ⟨hlen, hrows⟩ := hshape
  cases hd : h.data with
  | nil => rw [hd] at hlen; simp at hlen; omega
  | cons r rest =>
    have hr : r ∈ h.data := by rw [hd]; exact List.mem_cons_self r rest
    simp [hd, (hrows r hr).1]

/-- `chunked_output` returns exactly `numChunks` pieces. -/
theorem chunked_output_len (st : GemmaTransformerDecoder) (h : Tensor3)
    (b n d : Nat) (hb : 0 < b) (hshape : HasShape h b n d) :
    (st.chunked_output h).length = numChunks st.num_output_chunks n := by
  simp only [GemmaTransformerDecoder.chunked_output, Tensor3.chunk,
    headD_len h b n d hb hshape, List.length_map, List.length_range]

/-- C1: in cached mode (causal mask present, as built by `setup_caches`),
a `forward` call with `input_pos` supplied and no explicit mask hands every
decoder layer the gather of causal-mask rows at the supplied positions
(`forwardRest` threads the same mask through `runLayers` to each layer),
and each gathered row `p` is true exactly on columns `0..p` and false on
columns `p+1..L-1`. -/
theorem claim_C1_cached_mask_is_causal_gather (lf : LayerFwd) (sqrtD : Int)
    (st : GemmaTransformerDecoder) (tokens : List (List Nat))
    (ps : List Nat) (L : Nat)
    (hcm : st.causal_mask = some (trilOnes L))
    (hps : ∀ p ∈ ps, p < L) :
    GemmaTransformerDecoder.forward lf sqrtD st tokens none (some ps)
      = GemmaTransformerDecoder.forwardRest lf sqrtD st (st.tok_embed tokens)
          (some (maskGather (trilOnes L) ps)) (some ps) ∧
    maskGather (trilOnes L) ps
      = [ps.map (fun p => (List.range L).map (fun j => decide (j ≤ p)))] ∧
    (∀ p ∈ ps, ∀ j, j < L →
      ((trilOnes L).getD p []).getD j false = decide (j ≤ p)) := by
  refine ⟨by simp [GemmaTransformerDecoder.forward, hcm], ?_, ?_⟩
  · unfold maskGather
    rw [List.map_congr_left (fun p hp => trilOnes_row L p (hps p hp))]
  · intro p hp j hj
    exact trilOnes_entry L p j (hps p hp) hj

/-- C1 witness: at `L = 4`, `input_pos = [2]`, the gathered mask row is
true on columns 0..2 and false on column 3. -/
theorem claim_C1_cached_mask_is_causal_gather_witness :
    maskGather (trilOnes 4) [2] = [[[true, true, true, false]]] := by
  have h := claim_C1_cached_mask_is_causal_gather lfEx 1 stCached [[0]] [2] 4
    rfl (by decide)
  rw [h.2.1]
  rfl

/-- C2: in cached mode, a `forward` call without `input_pos` returns the
invalid-argument (`ValueError`) result — no logits are produced and the
state is unchanged. -/
theorem claim_C2_missing_input_pos_raises (lf : LayerFwd) (sqrtD : Int)
    (st : GemmaTransformerDecoder) (tokens : List (List Nat))
    (mask : Option Mask) (cm : List (List Bool))
    (hcm : st.causal_mask = some cm) :
    GemmaTransformerDecoder.forward lf sqrtD st tokens mask none
      = (Except.error (Err.valueError
          "Caches are setup, but the position of input token is missing"),
         st) := by
  simp [GemmaTransformerDecoder.forward, hcm]

/-- C2 witness at a concrete cached decoder. -/
theorem claim_C2_missing_input_pos_raises_witness :
    stCached.causal_mask = some (trilOnes 4) ∧
    GemmaTransformerDecoder.forward lfEx 1 stCached [[0]] none none
      = (Except.error (Err.valueError
          "Caches are setup, but the position of input token is missing"),
         stCached) :=
  ⟨rfl, claim_C2_missing_input_pos_raises lfEx 1 stCached [[0]] none
    (trilOnes 4) rfl⟩

/-- C3: in cached mode, a `forward` call that supplies an explicit mask
(whether or not `input_pos` is present) returns an invalid-argument
(`ValueError`) result rather than using the supplied mask. -/
theorem claim_C3_explicit_mask_raises (lf : LayerFwd) (sqrtD : Int)
    (st : GemmaTransformerDecoder) (tokens : List (List Nat))
    (m : Mask) (input_pos : Option (List Nat)) (cm : List (List Bool))
    (hcm : st.causal_mask = some cm) :
    ∃ msg, GemmaTransformerDecoder.forward lf sqrtD st tokens (some m) input_pos
      = (Except.error (Err.valueError msg), st) := by
  cases input_pos
  · exact ⟨"Caches are setup, but the position of input token is missing",
      by simp [GemmaTransformerDecoder.forward, hcm]⟩
  · exact ⟨"An attention mask was set. Cannot use a non-causal mask for inference",
      by simp [GemmaTransformerDecoder.forward, hcm]⟩

/-- C3 witness at a concrete cached decoder with an explicit mask. -/
theorem claim_C3_explicit_mask_raises_witness :
    stCached.causal_mask = some (trilOnes 4) ∧
    ∃ msg, GemmaTransformerDecoder.forward lfEx 1 stCached [[0]]
        (some [[[true]]]) (some [0])
      = (Except.error (Err.valueError msg), stCached) :=
  ⟨rfl, claim_C3_explicit_mask_raises lfEx 1 stCached [[0]] [[[true]]]
    (some [0]) (trilOnes 4) rfl⟩

/-- C4: after any `setup_caches` call the stored causal mask is the
`[max_seq_len, max_seq_len]` boolean matrix with entry `(i, j)` equal to
`j ≤ i`, rebuilt by direct construction; it is read-only between calls
(`forward` and `set_num_output_chunks` never change it). -/
theorem claim_C4_causal_mask_lower_triangular (st : GemmaTransformerDecoder)
    (batch_size : Nat) (dtype : DType) (e d : Option Nat) :
    (st.setup_caches batch_size dtype e d).causal_mask
        = some (trilOnes st.max_seq_len) ∧
    (trilOnes st.max_seq_len).length = st.max_seq_len ∧
    (∀ r ∈ trilOnes st.max_seq_len, r.length = st.max_seq_len) ∧
    (∀ i j, i < st.max_seq_len → j < st.max_seq_len →
      ((trilOnes st.max_seq_len).getD i []).getD j false = decide (j ≤ i)) ∧
    (∀ lf sqrtD toks m ip,
      ((GemmaTransformerDecoder.forward lf sqrtD
          (st.setup_caches batch_size dtype e d) toks m ip).2).causal_mask
        = (st.setup_caches batch_size dtype e d).causal_mask) ∧
    (∀ n, ((st.setup_caches batch_size dtype e d).set_num_output_chunks
        n).causal_mask
        = (st.setup_caches batch_size dtype e d).causal_mask) := by
  refine ⟨rfl, by simp [trilOnes], ?_, ?_, ?_, fun n => rfl⟩
  · intro r hr
    simp only [trilOnes, List.mem_map] at hr
    obtain ⟨i, _, rfl⟩ := hr
    simp
  · intro i j hi hj
    exact trilOnes_entry st.max_seq_len i j hi hj
  · intro lf sqrtD toks m ip
    exact GemmaTransformerDecoder.forward_snd_causal lf sqrtD _ toks m ip

/-- C4 witness: the mask built at `max_seq_len = 4` and one interior
entry. -/
theorem claim_C4_causal_mask_lower_triangular_witness :
    (stEx.setup_caches 1 DType.float32 none (some 4)).causal_mask
      = some (trilOnes 4) ∧
    ((trilOnes 4).getD 2 []).getD 3 false = decide (3 ≤ 2) := by
  have h := claim_C4_causal_mask_lower_triangular stEx 1 DType.float32 none
    (some 4)
  exact ⟨h.1, h.2.2.2.1 2 3 (by decide) (by decide)⟩

/-- C9: whenever `forward` rejects a call with one of the invalid-argument
errors, the module state observable after the error equals the state
before the call — the checks precede the layer loop, so no layer cache is
mutated. -/
theorem claim_C9_error_leaves_state_unchanged (lf : LayerFwd) (sqrtD : Int)
    (st : GemmaTransformerDecoder) (tokens : List (List Nat))
    (mask : Option Mask) (input_pos : Option (List Nat)) (e : Err)
    (herr : (GemmaTransformerDecoder.forward lf sqrtD st tokens mask
        input_pos).1 = Except.error e) :
    (GemmaTransformerDecoder.forward lf sqrtD st tokens mask input_pos).2
      = st := by
  rcases hcm : st.causal_mask with _ | cm
  · have hfwd : GemmaTransformerDecoder.forward lf sqrtD st tokens mask input_pos
        = GemmaTransformerDecoder.forwardRest lf sqrtD st (st.tok_embed tokens)
            mask input_pos := by
      simp [GemmaTransformerDecoder.forward, hcm]
    obtain ⟨o, ho⟩ := GemmaTransformerDecoder.forwardRest_fst_ok lf sqrtD st
      (st.tok_embed tokens) mask input_pos
    rw [hfwd, ho] at herr
    exact absurd herr (by simp)
  · rcases input_pos with _ | ps
    · simp [GemmaTransformerDecoder.forward, hcm]
    · rcases mask with _ | m
      · have hfwd : GemmaTransformerDecoder.forward lf sqrtD st tokens none
            (some ps)
            = GemmaTransformerDecoder.forwardRest lf sqrtD st
                (st.tok_embed tokens) (some (maskGather cm ps)) (some ps) := by
          simp [GemmaTransformerDecoder.forward, hcm]
        obtain ⟨o, ho⟩ := GemmaTransformerDecoder.forwardRest_fst_ok lf sqrtD st
          (st.tok_embed tokens) (some (maskGather cm ps)) (some ps)
        rw [hfwd, ho] at herr
        exact absurd herr (by simp)
      · simp [GemmaTransformerDecoder.forward, hcm]

/-- C9 witness: a rejected cached-mode call leaves the concrete decoder
state intact. -/
theorem claim_C9_error_leaves_state_unchanged_witness :
    (GemmaTransformerDecoder.forward lfEx 1 stCached [[0]] none none).1
      = Except.error (Err.valueError
          "Caches are setup, but the position of input token is missing") ∧
    (GemmaTransformerDecoder.forward lfEx 1 stCached [[0]] none none).2
      = stCached :=
  ⟨rfl, claim_C9_error_leaves_state_unchanged lfEx 1 stCached [[0]] none none
    _ rfl⟩

/-- C10: every tensor returned by the chunked output projection keeps the
hidden state's working dtype (no float32 upcast on the chunked path),
whereas the non-chunked path upcasts its single result to float32; so with
a non-float32 working dtype the two paths differ in dtype. -/
theorem claim_C10_chunked_keeps_working_dtype (st : GemmaTransformerDecoder)
    (h : Tensor3) (W : List (List Int)) :
    (∀ c ∈ st.chunked_output h, c.dtype = h.dtype) ∧
    ((linear3 h W).float).dtype = DType.float32 ∧
    (h.dtype ≠ DType.float32 →
      ∀ c ∈ st.chunked_output h, c.dtype ≠ DType.float32) := by
  have hd : ∀ c ∈ st.chunked_output h, c.dtype = h.dtype := by
    intro c hc
    simp only [GemmaTransformerDecoder.chunked_output, Tensor3.chunk,
      List.mem_map, List.mem_range] at hc
    obtain ⟨t, ⟨k, hk, rfl⟩, rfl⟩ := hc
    simp [linear3]
  exact ⟨hd, rfl, fun hne c hc => by rw [hd c hc]; exact hne⟩

/-- C10 witness: a bfloat16 chunk of a concrete chunked projection is not
float32. -/
theorem claim_C10_chunked_keeps_working_dtype_witness :
    (⟨[[[1]]], DType.bfloat16⟩ : Tensor3).dtype ≠ DType.float32 :=
  (claim_C10_chunked_keeps_working_dtype stChunk2 hExB [[1]]).2.2 (by decide)
    ⟨[[[1]]], DType.bfloat16⟩ (by decide)

/-- C5: for a rectangular hidden state whose sequence length is divisible
by the configured chunk count `C > 0`, concatenating the `C` chunks of the
chunked output projection along the sequence axis (per batch row) equals
the single-shot projection, and each chunk has shape
`[batch, seq_len / C, vocab_size]`. -/
theorem claim_C5_chunked_matches_single_shot (st : GemmaTransformerDecoder)
    (h : Tensor3) (b n d : Nat) (hb : 0 < b) (hn : 0 < n)
    (hC : 0 < st.num_output_chunks) (hdvd : st.num_output_chunks ∣ n)
    (hshape : HasShape h b n d) :
    (∀ i, i < b → concatChunks (st.chunked_output h) i
        = (linear3 h st.tok_embeddings).data.getD i []) ∧
    (st.chunked_output h).length = st.num_output_chunks ∧
    (∀ c ∈ st.chunked_output h,
      HasShape c b (n / st.num_output_chunks) st.tok_embeddings.length) := by
  refine ⟨chunked_concat_eq st h b n d hb hn hC hshape, ?_, ?_⟩
  · rw [chunked_output_len st h b n d hb hshape]
    exact numChunks_dvd _ n hC hn hdvd
  · intro c hc
    obtain ⟨hlen, hrows⟩ := hshape
    have hhead := headD_len h b n d hb ⟨hlen, hrows⟩
    have hs := torchChunkSize_dvd st.num_output_chunks n hC hdvd
    have hK := numChunks_dvd st.num_output_chunks n hC hn hdvd
    have hCs : st.num_output_chunks * torchChunkSize st.num_output_chunks n
        = n := by
      rw [hs]; exact Nat.mul_div_cancel' hdvd
    simp only [GemmaTransformerDecoder.chunked_output, Tensor3.chunk, hhead,
      List.mem_map, List.mem_range] at hc
    obtain ⟨t, ⟨k, hk, rfl⟩, rfl⟩ := hc
    rw [hK] at hk
    refine hasShape_linear3 _ _ b (n / st.num_output_chunks) d ?_
    have hksn : k * torchChunkSize st.num_output_chunks n
        + torchChunkSize st.num_output_chunks n ≤ n := by
      have h1 : (k + 1) * torchChunkSize st.num_output_chunks n
          ≤ st.num_output_chunks * torchChunkSize st.num_output_chunks n :=
        Nat.mul_le_mul_right _ (by omega)
      have h2 : (k + 1) * torchChunkSize st.num_output_chunks n
          = k * torchChunkSize st.num_output_chunks n
            + torchChunkSize st.num_output_chunks n := Nat.succ_mul _ _
      omega
    refine ⟨by simpa using hlen, ?_⟩
    intro r hr
    simp only [List.mem_map] at hr
    obtain ⟨r0, hr0, rfl⟩ := hr
    have hr0n : r0.length = n := (hrows r0 hr0).1
    constructor
    · rw [List.length_take, List.length_drop, hr0n, ← hs]
      omega
    · intro x hx
      have hx0 : x ∈ r0 := List.mem_of_mem_drop (List.mem_of_mem_take hx)
      exact (hrows r0 hr0).2 x hx0

/-- C5 witness: with 2 chunks on a `1 × 4 × 1` hidden state, the chunk
concatenation for batch row 0 equals the single-shot projection row. -/
theorem claim_C5_chunked_matches_single_shot_witness :
    concatChunks (stChunk2.chunked_output hEx4) 0
      = (linear3 hEx4 stChunk2.tok_embeddings).data.getD 0 [] :=
  (claim_C5_chunked_matches_single_shot stChunk2 hEx4 1 4 1 (by decide)
    (by decide) (by decide) (by decide) ⟨rfl, by decide⟩).1 0 (by decide)

/-- C6 counterexample: with `num_output_chunks = 2` and sequence length 3
(not divisible by 2), the forward call is NOT a fatal error — it succeeds,
silently returning two chunks of unequal sequence lengths 2 and 1.  This
refutes the claim that a non-divisible sequence length is rejected. -/
theorem claim_C6_counterexample :
    GemmaTransformerDecoder.forward lfEx 1 stChunk2 [[0, 0, 0]] none none
      = (Except.ok (Output.chunked
          [⟨[[[1], [1]]], DType.bfloat16⟩, ⟨[[[1]]], DType.bfloat16⟩]),
         stChunk2) := by
  rfl

/-- C6 (amended): when the sequence length `n` is not divisible by the
chunk count `C > 0`, the call succeeds silently: `torch.chunk` splits
into windows of size `⌈n / C⌉` (so chunks can be unequal, and fewer than
`C` can be returned); the per-batch-row concatenation of the chunks still
equals the single-shot projection, every chunk row is at most
`⌈n / C⌉` long, and the number of chunks is `numChunks C n`. -/
theorem claim_C6_nondivisible_silent_split (st : GemmaTransformerDecoder)
    (h : Tensor3) (b n d : Nat) (hb : 0 < b) (hn : 0 < n)
    (hC : 0 < st.num_output_chunks)
    (hndvd : ¬ st.num_output_chunks ∣ n) (hshape : HasShape h b n d) :
    (∀ i, i < b → concatChunks (st.chunked_output h) i
        = (linear3 h st.tok_embeddings).data.getD i []) ∧
    (st.chunked_output h).length = numChunks st.num_output_chunks n ∧
    (∀ c ∈ st.chunked_output h, ∀ r ∈ c.data,
      r.length ≤ torchChunkSize st.num_output_chunks n) := by
  refine ⟨chunked_concat_eq st h b n d hb hn hC hshape,
    chunked_output_len st h b n d hb hshape, ?_⟩
  intro c hc r hr
  have hhead := headD_len h b n d hb hshape
  simp only [GemmaTransformerDecoder.chunked_output, Tensor3.chunk, hhead,
    List.mem_map, List.mem_range] at hc
  obtain ⟨t, ⟨k, hk, rfl⟩, rfl⟩ := hc
  simp only [linear3, List.map_map, List.mem_map, Function.comp] at hr
  obtain ⟨r0, hr0, rfl⟩ := hr
  rw [List.length_map, List.length_take]
  exact Nat.min_le_left _ _

/-- C6 amended witness: with 2 chunks on the non-divisible `1 × 3 × 1`
hidden state, the concatenation for batch row 0 still equals the
single-shot projection row. -/
theorem claim_C6_nondivisible_silent_split_witness :
    concatChunks (stChunk2.chunked_output hEx3) 0
      = (linear3 hEx3 stChunk2.tok_embeddings).data.getD 0 [] :=
  (claim_C6_nondivisible_silent_split stChunk2 hEx3 1 3 1 (by decide)
    (by decide) (by decide) (by decide) ⟨rfl, by decide⟩).1 0 (by decide)

/-- C7: in every reachable state, the causal mask is present iff
`caches_are_setup` reports true; `caches_are_setup` returns exactly layer
0's cache-enabled flag; after construction both sides are false, and after
any `setup_caches` call both are true. -/
theorem claim_C7_cache_mask_invariant :
    (∀ st, Reachable st →
      (st.causal_mask.isSome ↔ st.caches_are_setup = some true)) ∧
    (∀ st : GemmaTransformerDecoder,
      st.caches_are_setup = st.layers.head?.map Layer.cache_enabled) ∧
    (∀ W dt l n L nh hd nrm ne, l.cache_enabled = false → 0 < n →
      (GemmaTransformerDecoder.init W dt l n L nh hd nrm ne).causal_mask
        = none ∧
      (GemmaTransformerDecoder.init W dt l n L nh hd nrm ne).caches_are_setup
        = some false) ∧
    (∀ (st : GemmaTransformerDecoder) b dt e d, st.layers ≠ [] →
      (st.setup_caches b dt e d).causal_mask.isSome = true ∧
      (st.setup_caches b dt e d).caches_are_setup = some true) := by
  have hsetup : ∀ (st : GemmaTransformerDecoder) b dt e d, st.layers ≠ [] →
      (st.setup_caches b dt e d).causal_mask.isSome = true ∧
      (st.setup_caches b dt e d).caches_are_setup = some true := by
    intro st b dt e d hne
    rcases hls : st.layers with _ | ⟨l0, rest⟩
    · exact absurd hls hne
    · refine ⟨rfl, ?_⟩
      simp [GemmaTransformerDecoder.setup_caches,
        GemmaTransformerDecoder.caches_are_setup, hls, Layer.setup_caches]
  have main : ∀ st, Reachable st → st.layers ≠ [] ∧
      (st.causal_mask.isSome ↔ st.caches_are_setup = some true) := by
    intro st hst
    induction hst with
    | init W dt l n L nh hd nrm ne hl hn =>
      rcases n with _ | m
      · omega
      · constructor
        · simp [GemmaTransformerDecoder.init, List.replicate]
        · simp [GemmaTransformerDecoder.init,
            GemmaTransformerDecoder.caches_are_setup, List.replicate, hl]
    | setup st b dt e d hst ih =>
      obtain ⟨hne, _⟩ := ih
      obtain ⟨h1, h2⟩ := hsetup st b dt e d hne
      constructor
      · intro hcontra
        have hnone : (st.setup_caches b dt e d).caches_are_setup = none := by
          simp [GemmaTransformerDecoder.caches_are_setup, hcontra]
        rw [h2] at hnone
        exact Option.noConfusion hnone
      · rw [h1, h2]; simp
    | chunks st n hst ih =>
      obtain ⟨hne, hiff⟩ := ih
      exact ⟨hne, hiff⟩
    | fwd lf sq st toks m ip hst ih =>
      obtain ⟨hne, hiff⟩ := ih
      have hcm := GemmaTransformerDecoder.forward_snd_causal lf sq st toks m ip
      have hen := GemmaTransformerDecoder.forward_snd_map_enabled lf sq st
        toks m ip
      have hsetup_eq : (GemmaTransformerDecoder.forward lf sq st toks m
          ip).2.caches_are_setup = st.caches_are_setup := by
        unfold GemmaTransformerDecoder.caches_are_setup
        rw [← List.head?_map, ← List.head?_map, hen]
      constructor
      · intro hcontra
        apply hne
        have hlen := congrArg List.length hen
        simp only [List.length_map] at hlen
        rw [hcontra] at hlen
        simp at hlen
        exact List.eq_nil_of_length_eq_zero hlen.symm
      · rw [hcm, hsetup_eq]; exact hiff
  exact ⟨fun st hst => (main st hst).2, fun st => rfl,
    fun W dt l n L nh hd nrm ne hl hn => by
      rcases n with _ | m
      · omega
      · exact ⟨rfl, by simp [GemmaTransformerDecoder.init,
          GemmaTransformerDecoder.caches_are_setup, List.replicate, hl]⟩,
    hsetup⟩

/-- C7 witness: the invariant instantiated at the reachable concrete state
`stCached` (construction followed by `setup_caches`). -/
theorem claim_C7_cache_mask_invariant_witness :
    stCached.causal_mask.isSome = true ∧
    stCached.caches_are_setup = some true := by
  have hr : Reachable stCached :=
    Reachable.setup stEx 1 DType.float32 none (some 4)
      (Reachable.init [[1]] DType.bfloat16 ⟨false, []⟩ 1 4 1 1 id false rfl
        (by decide))
  exact ⟨rfl, (claim_C7_cache_mask_invariant.1 stCached hr).mp rfl⟩

/-- C8: for every `forward` call with chunking disabled
(`num_output_chunks = 0`), in either mode, whenever the call returns
logits they are the single linear projection of the final normalized
hidden state against the transposed embedding weight, upcast to float32
regardless of the working dtype, with shape `[batch, seq_len, vocab_size]`
(given the shape-preserving collaborator contracts for layers and norm).
The effective mask fed to the layer loop is the caller's mask in
non-cached mode and the causal-row gather in cached mode; calls that
return no logits are exactly the cached-mode precondition rejections. -/
theorem claim_C8_unchunked_float32_projection (lf : LayerFwd) (sqrtD : Int)
    (st : GemmaTransformerDecoder) (tokens : List (List Nat))
    (mask : Option Mask) (input_pos : Option (List Nat)) (b s d : Nat)
    (hchunks : st.num_output_chunks = 0)
    (hlf : ∀ h m ip c b s d, HasShape h b s d → HasShape (lf h m ip c).1 b s d)
    (hnorm : ∀ h b s d, HasShape h b s d → HasShape (st.norm h) b s d)
    (htl : tokens.length = b)
    (hrow : ∀ r ∈ tokens, r.length = s ∧ ∀ t ∈ r, t < st.tok_embeddings.length)
    (hW : ∀ w ∈ st.tok_embeddings, w.length = d) :
    ∀ o, (GemmaTransformerDecoder.forward lf sqrtD st tokens mask
        input_pos).1 = Except.ok o →
      ∃ em ip2 hfin,
        hfin = st.norm (GemmaTransformerDecoder.runLayers lf em ip2
          (if st.norm_embeddings then (st.tok_embed tokens).scaleBy sqrtD
           else st.tok_embed tokens) st.layers).1 ∧
        (st.causal_mask = none → em = mask ∧ ip2 = input_pos) ∧
        (∀ cm ps, st.causal_mask = some cm → mask = none →
          input_pos = some ps →
          em = some (maskGather cm ps) ∧ ip2 = some ps) ∧
        o = Output.single ((linear3 hfin st.tok_embeddings).float) ∧
        ((linear3 hfin st.tok_embeddings).float).dtype = DType.float32 ∧
        HasShape ((linear3 hfin st.tok_embeddings).float) b s
          st.tok_embeddings.length := by
  intro o ho
  have hshape : ∀ (em : Option Mask) (ip2 : Option (List Nat)),
      HasShape ((linear3 (st.norm (GemmaTransformerDecoder.runLayers lf em ip2
        (if st.norm_embeddings then (st.tok_embed tokens).scaleBy sqrtD
         else st.tok_embed tokens) st.layers).1) st.tok_embeddings).float) b s
        st.tok_embeddings.length := by
    intro em ip2
    have hembed := hasShape_tok_embed st tokens b s d htl hrow hW
    have hscaled : HasShape
        (if st.norm_embeddings then (st.tok_embed tokens).scaleBy sqrtD
         else st.tok_embed tokens) b s d := by
      cases st.norm_embeddings
      · simpa using hembed
      · simpa using hasShape_scaleBy _ sqrtD b s d hembed
    exact hasShape_linear3 _ st.tok_embeddings b s d
      (hnorm _ b s d (hasShape_runLayers lf hlf em ip2 b s d st.layers _
        hscaled))
  rcases hcm : st.causal_mask with _ | cm
  · have hfwd : (GemmaTransformerDecoder.forward lf sqrtD st tokens mask
        input_pos).1
        = (GemmaTransformerDecoder.forwardRest lf sqrtD st
            (st.tok_embed tokens) mask input_pos).1 := by
      simp [GemmaTransformerDecoder.forward, hcm]
    rw [hfwd, GemmaTransformerDecoder.forwardRest_fst_unchunked lf sqrtD st _
      mask input_pos hchunks] at ho
    refine ⟨mask, input_pos, _, rfl, fun _ => ⟨rfl, rfl⟩, ?_,
      (Except.ok.inj ho).symm, rfl, hshape mask input_pos⟩
    intro cm ps hsome hmask hip
    exact Option.noConfusion hsome
  · rcases input_pos with _ | ps
    · simp [GemmaTransformerDecoder.forward, hcm] at ho
    · rcases mask with _ | m
      · have hfwd : (GemmaTransformerDecoder.forward lf sqrtD st tokens none
            (some ps)).1
            = (GemmaTransformerDecoder.forwardRest lf sqrtD st
                (st.tok_embed tokens) (some (maskGather cm ps)) (some ps)).1 := by
          simp [GemmaTransformerDecoder.forward, hcm]
        rw [hfwd, GemmaTransformerDecoder.forwardRest_fst_unchunked lf sqrtD
          st _ (some (maskGather cm ps)) (some ps) hchunks] at ho
        refine ⟨some (maskGather cm ps), some ps, _, rfl, ?_, ?_,
          (Except.ok.inj ho).symm, rfl, hshape _ _⟩
        · intro hnone
          exact Option.noConfusion hnone
        · intro cm2 ps2 hsome hmask hip
          obtain rfl : cm = cm2 := Option.some.inj hsome
          obtain rfl : ps = ps2 := Option.some.inj hip
          exact ⟨rfl, rfl⟩
      · simp [GemmaTransformerDecoder.forward, hcm] at ho

/-- C8 witness: a cached-mode unchunked forward call produces float32
single-projection logits of the expected shape. -/
theorem claim_C8_unchunked_float32_projection_witness :
    (GemmaTransformerDecoder.forward lfEx 1 stCached [[0]] none
        (some [0])).1
      = Except.ok (Output.single ⟨[[[1]]], DType.float32⟩) ∧
    HasShape (⟨[[[1]]], DType.float32⟩ : Tensor3) 1 1 1 := by
  obtain ⟨em, ip2, hfin, h1, h2, h3, h4, h5, h6⟩ :=
    claim_C8_unchunked_float32_projection lfEx 1 stCached [[0]] none
      (some [0]) 1 1 1 rfl
      (fun h m ip c b s d hh => hh) (fun h b s d hh => hh) rfl
      (by decide) (by decide)
      (Output.single ⟨[[[1]]], DType.float32⟩) rfl
  refine ⟨rfl, ?_⟩
  have heq := Output.single.inj h4
  rw [heq]
  exact h6

end Gemma
